import Mathlib

/-!
Verification of the Herald execution and heartbeat core.

This file gives a shallow embedding, in Lean, of the pure logic of the
Herald repository (`src/herald`): the response classifier
(`heartbeat/classifier.py`), the interval parser (`heartbeat/interval.py`),
the active-hours checker (`heartbeat/active_hours.py`), the message-drain
logic of the session executor (`executor.py`), and the heartbeat scheduler
tick (`heartbeat/scheduler.py`, `heartbeat/delivery.py`).

Modelling conventions:
- Python strings are Lean `String` / `List Char`.  Whitespace is modelled as
  the ASCII whitespace set (space, tab, newline, carriage return, vertical
  tab, form feed), which is what every input relevant to the claims uses.
- Python float values parsed from decimal literals are modelled exactly as
  rationals; the claims under consideration only involve values on which
  IEEE doubles are exact.
- The asyncio message-drain loop of `ClaudeExecutor._execute_locked` is
  modelled as a fold over the list of messages the SDK stream yields before
  the loop ends, together with a flag saying whether the loop ended because
  the idle wait timed out (`True`) or because the stream was exhausted
  (`False`).  The wall-clock `elapsed` value used in the timeout error
  message is an explicit parameter.
- The session table `ClaudeExecutor._clients` is modelled as the list of
  chat ids that currently hold a live client.
-/

namespace Herald

/-- ASCII whitespace, the characters Python `\s` and `str.strip` treat as
whitespace on the inputs considered here. -/
def pyIsSpace (c : Char) : Bool :=
  c = ' ' || c = '\t' || c = '\n' || c = '\r' || c = '\x0b' || c = '\x0c'

/-- Drop leading whitespace, Python `str.lstrip`. -/
def lstripL (l : List Char) : List Char := l.dropWhile pyIsSpace

/-- Drop trailing whitespace, Python `str.rstrip`. -/
def rstripL (l : List Char) : List Char := (l.reverse.dropWhile pyIsSpace).reverse

/-- Python `str.strip`. -/
def stripL (l : List Char) : List Char := rstripL (lstripL l)

/-- Python `str.strip` on `String`. -/
def pyStrip (s : String) : String := ⟨stripL s.data⟩

/-- ASCII lower-casing of one character, Python `str.lower` restricted to
ASCII (all inputs relevant to the claims are ASCII). -/
def pyToLower (c : Char) : Char :=
  if 'A' ≤ c ∧ c ≤ 'Z' then Char.ofNat (c.toNat + 32) else c

/-- Python `str.lower` on a character list. -/
def toLowerL (l : List Char) : List Char := l.map pyToLower

/-! ## Response classifier (`heartbeat/classifier.py`)

The classifier uses the fixed regular expression
`r"^\s*heartbeat_ok\s*|\s*heartbeat_ok\s*$"` with `re.IGNORECASE`, via
`re.search` for detection and `re.sub` for stripping.  The two alternatives
of this pattern can only match a leading or a trailing occurrence of the
marker, so both operations are modelled by direct string manipulation:

- the first alternative matches iff, after discarding leading whitespace,
  the lower-cased text starts with the marker; the match span is the
  leading whitespace, the marker, and the whitespace that follows it;
- the second alternative matches iff, after discarding trailing whitespace,
  the lower-cased text ends with the marker; the leftmost such match span
  is the whitespace run immediately before that marker, the marker, and
  all trailing whitespace (the `$` anchor, which in Python can also match
  just before a final newline, is absorbed by the greedy `\s*`);
- `re.sub` removes the leading match first and then the trailing match on
  what remains, which is exactly how the scan of the original string
  proceeds (the spans cannot overlap). -/

/-- The acknowledgment marker, lower-cased: `heartbeat_ok` (12 characters). -/
def heartbeatMarker : List Char := [ 'h', 'e', 'a', 'r', 't', 'b', 'e', 'a', 't', '_', 'o', 'k' ]

/-- Does `^\s*heartbeat_ok` match (case-insensitively)? -/
def markerAtStart (l : List Char) : Bool :=
  heartbeatMarker.isPrefixOf (toLowerL (lstripL l))

/-- Does `\s*heartbeat_ok\s*$` match (case-insensitively)? -/
def markerAtEnd (l : List Char) : Bool :=
  heartbeatMarker.isSuffixOf (toLowerL (rstripL l))

/-- Remove the leading match of `^\s*heartbeat_ok\s*`, if any. -/
def stripLeadingMarker (l : List Char) : List Char :=
  let t := lstripL l
  if heartbeatMarker.isPrefixOf (toLowerL t) then lstripL (t.drop 12) else l

/-- Remove the trailing match of `\s*heartbeat_ok\s*$`, if any. -/
def stripTrailingMarker (l : List Char) : List Char :=
  let t := rstripL l
  if heartbeatMarker.isSuffixOf (toLowerL t) then rstripL (t.take (t.length - 12)) else l

/-- The effect of `re.sub(pattern, "", response, flags=re.IGNORECASE)` for
the classifier pattern. -/
def subMarker (l : List Char) : List Char :=
  stripTrailingMarker (stripLeadingMarker l)

/-- `HeartbeatResponse` dataclass from `heartbeat/classifier.py`. -/
structure HeartbeatResponse where
  is_ok : Bool
  content : String
  should_deliver : Bool
deriving Repr, DecidableEq

/-- `classify_heartbeat_response` from `heartbeat/classifier.py`.
`ack_max_chars` is the threshold argument, which defaults to 300 at every
call site modelled here. -/
def classify_heartbeat_response (response : String) (ack_max_chars : Nat) : HeartbeatResponse :=
  if markerAtStart response.data || markerAtEnd response.data then
    { is_ok := true,
      content := ⟨stripL (subMarker response.data)⟩,
      should_deliver := (stripL (subMarker response.data)).length > ack_max_chars }
  else
    { is_ok := false, content := response, should_deliver := true }

/-! ### Supporting lemmas about whitespace, case folding and anchoring -/

lemma pyIsSpace_eq_false_of_upper (c : Char) (h1 : 'A' ≤ c) : pyIsSpace c = false := by
  cases hc : pyIsSpace c
  · rfl
  · exfalso
    simp only [pyIsSpace, Bool.or_eq_true, decide_eq_true_eq] at hc
    rcases hc with ((((rfl | rfl) | rfl) | rfl) | rfl) | rfl <;> exact absurd h1 (by decide)

lemma pyIsSpace_eq_false_of_toLower (c d : Char) (h : pyToLower c = d)
    (hd : pyIsSpace d = false) : pyIsSpace c = false := by
  unfold pyToLower at h
  split at h
  · rename_i hc
    exact pyIsSpace_eq_false_of_upper c hc.1
  · rw [h]; exact hd

lemma dropWhile_append_of_all {p : Char → Bool} (l₁ l₂ : List Char)
    (h : ∀ c ∈ l₁, p c = true) :
    (l₁ ++ l₂).dropWhile p = l₂.dropWhile p := by
  induction l₁ with
  | nil => rfl
  | cons a t ih =>
    simp only [List.cons_append, List.dropWhile_cons, h a (List.mem_cons_self a t), if_true]
    exact ih (fun c hc => h c (List.mem_cons_of_mem a hc))

/-- A pattern whose head cannot lower-case from whitespace matches as a
case-insensitive prefix of the left-stripped text exactly when the original
text is leading whitespace, then the pattern, then anything. -/
lemma isPrefixOf_toLower_lstrip_iff (pat l : List Char)
    (hne : pat ≠ [])
    (hh : ∀ (c : Char) (m : List Char), toLowerL (c :: m) = pat → pyIsSpace c = false) :
    pat.isPrefixOf (toLowerL (lstripL l)) = true ↔
      ∃ ws m rest : List Char, l = ws ++ (m ++ rest) ∧ (∀ c ∈ ws, pyIsSpace c = true) ∧
        toLowerL m = pat := by
  constructor
  · intro h
    rw [List.isPrefixOf_iff_prefix] at h
    obtain ⟨u, hu⟩ := h
    simp only [toLowerL] at hu
    refine ⟨l.takeWhile pyIsSpace, (lstripL l).take pat.length, (lstripL l).drop pat.length,
      ?_, ?_, ?_⟩
    · rw [List.take_append_drop, lstripL, List.takeWhile_append_dropWhile]
    · exact fun c hc => List.mem_takeWhile_imp hc
    · simp only [toLowerL]
      rw [List.map_take, ← hu, List.take_left]
  · rintro ⟨ws, m, rest, rfl, hws, hm⟩
    obtain ⟨c, m', rfl⟩ : ∃ c m', m = c :: m' := by
      cases m with
      | nil => exact absurd hm.symm (by simpa [toLowerL] using hne)
      | cons c m' => exact ⟨c, m', rfl⟩
    have hc : pyIsSpace c = false := hh c m' hm
    rw [List.isPrefixOf_iff_prefix, lstripL, dropWhile_append_of_all ws _ hws,
      List.cons_append, List.dropWhile_cons, hc]
    simp only [Bool.false_eq_true, if_false]
    rw [← hm]
    simp only [toLowerL, List.map_cons, List.map_append]
    exact ⟨List.map pyToLower rest, by simp⟩

lemma rstrip_reverse (l : List Char) : (rstripL l).reverse = lstripL l.reverse := by
  simp [rstripL, lstripL]

/-- Mirror image of `isPrefixOf_toLower_lstrip_iff` for the trailing case. -/
lemma isSuffixOf_toLower_rstrip_iff (pat l : List Char)
    (hne : pat ≠ [])
    (hh : ∀ (c : Char) (m : List Char), toLowerL (m ++ [c]) = pat → pyIsSpace c = false) :
    pat.isSuffixOf (toLowerL (rstripL l)) = true ↔
      ∃ rest m ws : List Char, l = rest ++ (m ++ ws) ∧ (∀ c ∈ ws, pyIsSpace c = true) ∧
        toLowerL m = pat := by
  have key : pat.isSuffixOf (toLowerL (rstripL l)) =
      pat.reverse.isPrefixOf (toLowerL (lstripL l.reverse)) := by
    rw [List.isSuffixOf]
    congr 1
    rw [toLowerL, ← List.map_reverse, rstrip_reverse, toLowerL]
  rw [key, isPrefixOf_toLower_lstrip_iff pat.reverse l.reverse
    (by simpa using hne)
    (by
      intro c m hcm
      apply hh c m.reverse
      have h2 := congrArg List.reverse hcm
      simpa [toLowerL, ← List.map_reverse] using h2)]
  constructor
  · rintro ⟨ws, m, rest, hl, hws, hm⟩
    refine ⟨rest.reverse, m.reverse, ws.reverse, ?_, ?_, ?_⟩
    · have h2 := congrArg List.reverse hl
      simpa [List.reverse_append] using h2
    · intro c hc; exact hws c (by simpa using hc)
    · have h2 := congrArg List.reverse hm
      simpa [toLowerL, ← List.map_reverse] using h2
  · rintro ⟨rest, m, ws, hl, hws, hm⟩
    refine ⟨ws.reverse, m.reverse, rest.reverse, ?_, ?_, ?_⟩
    · have h2 := congrArg List.reverse hl
      simpa [List.reverse_append] using h2
    · intro c hc; exact hws c (by simpa using hc)
    · have h2 := congrArg List.reverse hm
      simpa [toLowerL, ← List.map_reverse] using h2

lemma marker_head (c : Char) (m : List Char) (h : toLowerL (c :: m) = heartbeatMarker) :
    pyIsSpace c = false := by
  simp only [toLowerL, List.map_cons, heartbeatMarker] at h
  exact pyIsSpace_eq_false_of_toLower c 'h' (List.cons.injEq .. ▸ h |>.1) (by decide)

lemma marker_last (c : Char) (m : List Char) (h : toLowerL (m ++ [c]) = heartbeatMarker) :
    pyIsSpace c = false := by
  have h2 := congrArg List.reverse h
  simp only [toLowerL, List.map_append, List.map_cons, List.map_nil, List.reverse_append,
    List.reverse_cons, List.reverse_nil, List.nil_append, List.singleton_append,
    heartbeatMarker] at h2
  exact pyIsSpace_eq_false_of_toLower c 'k' (List.cons.injEq .. ▸ h2 |>.1) (by decide)

/-- Spec notion: the acknowledgment marker occurs, case-insensitively,
anchored at the very start of the (possibly whitespace-padded) text. -/
def AnchoredAtStart (s : String) : Prop :=
  ∃ ws m rest : List Char, s.data = ws ++ (m ++ rest) ∧
    (∀ c ∈ ws, pyIsSpace c = true) ∧ toLowerL m = heartbeatMarker

/-- Spec notion: the acknowledgment marker occurs, case-insensitively,
anchored at the very end of the (possibly whitespace-padded) text. -/
def AnchoredAtEnd (s : String) : Prop :=
  ∃ rest m ws : List Char, s.data = rest ++ (m ++ ws) ∧
    (∀ c ∈ ws, pyIsSpace c = true) ∧ toLowerL m = heartbeatMarker

/-- Claim C5: the response classifier detects the acknowledgment marker
case-insensitively only when anchored at the very start or very end of the
(possibly whitespace-padded) text, stripping matches at both ends and
ignoring interior-only occurrences; when a marker is detected it returns
is_ok true, content equal to the text with the marker and adjoining
whitespace removed and trimmed, and should_deliver true iff the content
length is strictly greater than the acknowledgment threshold; when no
marker is detected it returns is_ok false, content equal to the original
text unmodified, and should_deliver true unconditionally, including for
empty or whitespace-only input. -/
theorem c5_classifier_detection_and_delivery (s : String) (k : Nat) :
    ((classify_heartbeat_response s k).is_ok = true ↔ AnchoredAtStart s ∨ AnchoredAtEnd s)
    ∧ ((classify_heartbeat_response s k).is_ok = true →
        (classify_heartbeat_response s k).content = ⟨stripL (subMarker s.data)⟩
        ∧ ((classify_heartbeat_response s k).should_deliver = true ↔
            (classify_heartbeat_response s k).content.length > k))
    ∧ ((classify_heartbeat_response s k).is_ok = false →
        (classify_heartbeat_response s k).content = s
        ∧ (classify_heartbeat_response s k).should_deliver = true) := by
  have hstart : markerAtStart s.data = true ↔ AnchoredAtStart s :=
    isPrefixOf_toLower_lstrip_iff heartbeatMarker s.data (by decide) marker_head
  have hend : markerAtEnd s.data = true ↔ AnchoredAtEnd s :=
    isSuffixOf_toLower_rstrip_iff heartbeatMarker s.data (by decide) marker_last
  unfold classify_heartbeat_response
  by_cases hok : (markerAtStart s.data || markerAtEnd s.data) = true
  · rw [if_pos hok]
    refine ⟨?_, ?_, ?_⟩
    · constructor
      · intro _
        rcases Bool.or_eq_true .. ▸ hok with h | h
        · exact Or.inl (hstart.mp h)
        · exact Or.inr (hend.mp h)
      · intro _; rfl
    · intro _
      exact ⟨rfl, by simp [String.length]⟩
    · intro h
      simp at h
  · rw [if_neg hok]
    refine ⟨?_, ?_, ?_⟩
    · constructor
      · intro h; simp at h
      · rintro (h | h)
        · exact absurd (Bool.or_eq_true .. ▸ Or.inl (hstart.mpr h)) hok
        · exact absurd (Bool.or_eq_true .. ▸ Or.inr (hend.mpr h)) hok
    · intro h; simp at h
    · intro _; exact ⟨rfl, rfl⟩

/-- Witness for C5: a concrete acknowledgment with a short payload is
detected, stripped, and suppressed. -/
theorem c5_classifier_detection_and_delivery_witness :
    (classify_heartbeat_response ("HEARTBEAT_OK all clear") 300).is_ok = true ∧
    (classify_heartbeat_response ("HEARTBEAT_OK all clear") 300).content = ("all clear") ∧
    (classify_heartbeat_response ("HEARTBEAT_OK all clear") 300).should_deliver = false := by
  have h := c5_classifier_detection_and_delivery ("HEARTBEAT_OK all clear") 300
  refine ⟨?_, by decide, by decide⟩
  exact h.1.mpr
    (Or.inl ⟨[], ("HEARTBEAT_OK").data, (" all clear").data, by decide, by decide, by decide⟩)

/-- Claim C10: the marker detection has no trailing word boundary; on the
input HEARTBEAT_OKAY system nominal, the classifier reports is_ok true and
strips only the 12-character marker prefix, leaving AY system nominal as
the content. -/
theorem c10_marker_no_trailing_boundary :
    classify_heartbeat_response ("HEARTBEAT_OKAY system nominal") 300 =
      { is_ok := true, content := "AY system nominal", should_deliver := false } := by decide

/-! ## Session executor (`executor.py`)

`ClaudeExecutor._execute_locked` drains the SDK message stream in a loop.
The loop body is pure state accumulation; the only effects are the idle
waits.  The embedding below represents one `execute` call by the list of
messages the stream yielded before the loop ended, plus a flag saying
whether the loop ended because `asyncio.wait_for` timed out (`timedOut =
true`) or because the stream was exhausted (`_next_message` returned
`None`, `timedOut = false`).  The elapsed wall-clock seconds that appear
in the timeout error text are an explicit parameter.  The session table
`self._clients` is modelled as the list of chat ids holding a live client. -/

/-- `MIN_STREAM_LENGTH` from `executor.py`. -/
def MIN_STREAM_LENGTH : Nat := 200

/-- Content blocks of an `AssistantMessage`. -/
inductive SdkBlock
  | text (s : String)
  | toolUse (name : String)
deriving Repr, DecidableEq

/-- The SDK message shapes the drain loop distinguishes. -/
inductive SdkMessage
  | assistant (content : List SdkBlock)
  | result (res : Option String)
  | system (subtype : String)
deriving Repr, DecidableEq

/-- `"\n".join(...)`. -/
def joinNL (parts : List String) : String := String.intercalate ("\n") parts

/-- The `TextBlock` texts of one assistant message, in order. -/
def msgTextParts : List SdkBlock → List String
  | [] => []
  | .text s :: bs => s :: msgTextParts bs
  | .toolUse _ :: bs => msgTextParts bs

/-- The number of `ToolUseBlock`s in one assistant message. -/
def msgToolUses : List SdkBlock → Nat
  | [] => 0
  | .text _ :: bs => msgToolUses bs
  | .toolUse _ :: bs => msgToolUses bs + 1

/-- The local accumulator variables of the drain loop in
`_execute_locked`, plus the list of texts forwarded to the
`on_assistant_text` callback (in call order). -/
structure DrainState where
  text_parts : List String
  last_result_text : Option String
  result_count : Nat
  tool_count : Nat
  streamed : List String
deriving Repr, DecidableEq

/-- Initial accumulator values. -/
def initDrain : DrainState :=
  { text_parts := [], last_result_text := none, result_count := 0,
    tool_count := 0, streamed := [] }

/-- One iteration of the drain loop body on a received message.
`hasCallback` says whether `on_assistant_text` was supplied. -/
def processMessage (hasCallback : Bool) (st : DrainState) : SdkMessage → DrainState
  | .assistant content =>
    let st1 : DrainState :=
      { st with
        text_parts := st.text_parts ++ msgTextParts content,
        tool_count := st.tool_count + msgToolUses content }
    -- stream substantive text to the callback
    if hasCallback = true ∧ msgTextParts content ≠ [] ∧
        MIN_STREAM_LENGTH ≤ (joinNL (msgTextParts content)).length then
      { st1 with streamed := st1.streamed ++ [joinNL (msgTextParts content)] }
    else st1
  | .result r =>
    let st1 : DrainState := { st with result_count := st.result_count + 1 }
    -- `if message.result:` keeps only non-None, non-empty result text
    match r with
    | some s => if s = "" then st1 else { st1 with last_result_text := some s }
    | none => st1
  | .system _ => st

/-- The whole drain loop. -/
def drain (hasCallback : Bool) (msgs : List SdkMessage) : DrainState :=
  msgs.foldl (processMessage hasCallback) initDrain

/-- `ExecutionResult` dataclass from `executor.py`. -/
structure ExecutionResult where
  success : Bool
  output : String
  error : Option String
deriving Repr, DecidableEq

/-- The error text of the zero-result timeout branch. -/
def timeoutErrorText (elapsed tool_count : Nat) : String :=
  "Timed out after " ++ toString elapsed ++
    "s waiting for Claude to respond (" ++ toString tool_count ++
    " tool calls in progress)"

/-- The session table after `_get_client`: the client is created if
absent. -/
def withClient (clients : List Int) (chat_id : Int) : List Int :=
  if chat_id ∈ clients then clients else clients ++ [chat_id]

/-- The session table after `_reset_client`: the entry is removed. -/
def withoutClient (clients : List Int) (chat_id : Int) : List Int :=
  clients.filter (fun c => c ≠ chat_id)

/-- `ClaudeExecutor._execute_locked` on the non-exception path: get or
create the client, drain the stream, then apply the timeout policy.
Returns the `ExecutionResult` and the session table after the call. -/
def executeLocked (clients : List Int) (chat_id : Int) (hasCallback : Bool)
    (msgs : List SdkMessage) (timedOut : Bool) (elapsed : Nat) :
    ExecutionResult × List Int :=
  if timedOut = true ∧ (drain hasCallback msgs).result_count = 0 then
    ({ success := false, output := "",
       error := some (timeoutErrorText elapsed (drain hasCallback msgs).tool_count) },
     withoutClient (withClient clients chat_id) chat_id)
  else
    ({ success := true,
       output := pyStrip ((drain hasCallback msgs).last_result_text.getD
         (joinNL (drain hasCallback msgs).text_parts)),
       error := none },
     withClient clients chat_id)

/-! ### Spec-side descriptions of a run -/

/-- The number of terminal result messages observed in a run. -/
def countResults : List SdkMessage → Nat
  | [] => 0
  | .result _ :: rest => countResults rest + 1
  | _ :: rest => countResults rest

/-- The number of tool-invocation signals observed in a run. -/
def countTools : List SdkMessage → Nat
  | [] => 0
  | .assistant content :: rest => msgToolUses content + countTools rest
  | _ :: rest => countTools rest

/-- All assistant text fragments of a run, in receipt order. -/
def allTextParts : List SdkMessage → List String
  | [] => []
  | .assistant content :: rest => msgTextParts content ++ allTextParts rest
  | _ :: rest => allTextParts rest

/-- The non-empty result text carried by one message, if it is a terminal
result whose payload passes the `if message.result:` truthiness test. -/
def resultTextOf : SdkMessage → Option String
  | .result (some s) => if s = "" then none else some s
  | _ => none

/-- The text of the last terminal result message that carried non-empty
text, if any (the value the drain's `last_result_text` ends at). -/
def lastResultText : List SdkMessage → Option String
  | [] => none
  | m :: rest =>
    match lastResultText rest with
    | some t => some t
    | none => resultTextOf m

/-- The payload of the last terminal result message observed, if any
(`none` when the run had no terminal result at all). -/
def lastTerminalPayload : List SdkMessage → Option (Option String)
  | [] => none
  | m :: rest =>
    match lastTerminalPayload rest with
    | some p => some p
    | none =>
      match m with
      | .result r => some r
      | _ => none

/-- The payloads of all terminal result messages of a run. -/
def resultPayloads : List SdkMessage → List (Option String)
  | [] => []
  | .result r :: rest => r :: resultPayloads rest
  | _ :: rest => resultPayloads rest

/-- The combined text of one assistant message. -/
def combinedText (content : List SdkBlock) : String := joinNL (msgTextParts content)

/-- Spec-side description of the callback traffic: the combined texts of
exactly those assistant messages whose combined length is at least the
minimum-substance threshold, in receipt order. -/
def specForwarded : List SdkMessage → List String
  | [] => []
  | .assistant content :: rest =>
    if MIN_STREAM_LENGTH ≤ (combinedText content).length
    then combinedText content :: specForwarded rest
    else specForwarded rest
  | _ :: rest => specForwarded rest

/-- What the drain forwards to the callback, message by message. -/
def streamedOf (hasCallback : Bool) : List SdkMessage → List String
  | [] => []
  | .assistant content :: rest =>
    if hasCallback = true ∧ msgTextParts content ≠ [] ∧
        MIN_STREAM_LENGTH ≤ (joinNL (msgTextParts content)).length
    then joinNL (msgTextParts content) :: streamedOf hasCallback rest
    else streamedOf hasCallback rest
  | _ :: rest => streamedOf hasCallback rest

/-! ### How the drain computes the spec-side descriptions -/

lemma pm_result_count (cb : Bool) (st : DrainState) (m : SdkMessage) :
    (processMessage cb st m).result_count =
      st.result_count + (match m with | .result _ => 1 | _ => 0) := by
  cases m with
  | assistant content => simp only [processMessage]; split <;> rfl
  | result r =>
    cases r with
    | none => rfl
    | some s => simp only [processMessage]; split <;> rfl
  | system sub => rfl

lemma pm_tool_count (cb : Bool) (st : DrainState) (m : SdkMessage) :
    (processMessage cb st m).tool_count =
      st.tool_count + (match m with | .assistant content => msgToolUses content | _ => 0) := by
  cases m with
  | assistant content => simp only [processMessage]; split <;> rfl
  | result r =>
    cases r with
    | none => rfl
    | some s => simp only [processMessage]; split <;> rfl
  | system sub => rfl

lemma pm_text_parts (cb : Bool) (st : DrainState) (m : SdkMessage) :
    (processMessage cb st m).text_parts =
      st.text_parts ++ (match m with | .assistant content => msgTextParts content | _ => []) := by
  cases m with
  | assistant content => simp only [processMessage]; split <;> rfl
  | result r =>
    cases r with
    | none => simp [processMessage]
    | some s => simp only [processMessage]; split <;> simp
  | system sub => simp [processMessage]

lemma pm_last_result (cb : Bool) (st : DrainState) (m : SdkMessage) :
    (processMessage cb st m).last_result_text =
      (match m with
       | .result (some s) => if s = "" then st.last_result_text else some s
       | _ => st.last_result_text) := by
  cases m with
  | assistant content => simp only [processMessage]; split <;> rfl
  | result r =>
    cases r with
    | none => rfl
    | some s => simp only [processMessage]; split <;> simp_all
  | system sub => rfl

lemma pm_streamed (cb : Bool) (st : DrainState) (m : SdkMessage) :
    (processMessage cb st m).streamed =
      st.streamed ++
        (match m with
         | .assistant content =>
           if cb = true ∧ msgTextParts content ≠ [] ∧
               MIN_STREAM_LENGTH ≤ (joinNL (msgTextParts content)).length
           then [joinNL (msgTextParts content)] else []
         | _ => []) := by
  cases m with
  | assistant content =>
    simp only [processMessage]
    split
    · rfl
    · simp
  | result r =>
    cases r with
    | none => simp [processMessage]
    | some s => simp only [processMessage]; split <;> simp
  | system sub => simp [processMessage]

lemma foldl_result_count (cb : Bool) (msgs : List SdkMessage) (st : DrainState) :
    (msgs.foldl (processMessage cb) st).result_count = st.result_count + countResults msgs := by
  induction msgs generalizing st with
  | nil => simp [countResults]
  | cons m rest ih =>
    rw [List.foldl_cons, ih, pm_result_count]
    cases m <;> simp [countResults] <;> omega

lemma foldl_tool_count (cb : Bool) (msgs : List SdkMessage) (st : DrainState) :
    (msgs.foldl (processMessage cb) st).tool_count = st.tool_count + countTools msgs := by
  induction msgs generalizing st with
  | nil => simp [countTools]
  | cons m rest ih =>
    rw [List.foldl_cons, ih, pm_tool_count]
    cases m <;> simp [countTools] <;> omega

lemma foldl_text_parts (cb : Bool) (msgs : List SdkMessage) (st : DrainState) :
    (msgs.foldl (processMessage cb) st).text_parts = st.text_parts ++ allTextParts msgs := by
  induction msgs generalizing st with
  | nil => simp [allTextParts]
  | cons m rest ih =>
    rw [List.foldl_cons, ih, pm_text_parts]
    cases m <;> simp [allTextParts]

lemma foldl_last_result (cb : Bool) (msgs : List SdkMessage) (st : DrainState) :
    (msgs.foldl (processMessage cb) st).last_result_text =
      (match lastResultText msgs with
       | some t => some t
       | none => st.last_result_text) := by
  induction msgs generalizing st with
  | nil => simp [lastResultText]
  | cons m rest ih =>
    rw [List.foldl_cons, ih, pm_last_result]
    cases m with
    | assistant content =>
      simp only [lastResultText]
      cases lastResultText rest <;> rfl
    | result r =>
      cases r with
      | none =>
        simp only [lastResultText]
        cases lastResultText rest <;> rfl
      | some s =>
        by_cases hs : s = ""
        · subst hs
          simp only [lastResultText, if_pos rfl]
          cases lastResultText rest <;> simp [resultTextOf]
        · simp only [lastResultText, if_neg hs]
          cases lastResultText rest <;> simp [resultTextOf, hs]
    | system sub =>
      simp only [lastResultText]
      cases lastResultText rest <;> rfl

lemma foldl_streamed (cb : Bool) (msgs : List SdkMessage) (st : DrainState) :
    (msgs.foldl (processMessage cb) st).streamed = st.streamed ++ streamedOf cb msgs := by
  induction msgs generalizing st with
  | nil => simp [streamedOf]
  | cons m rest ih =>
    rw [List.foldl_cons, ih, pm_streamed]
    cases m with
    | assistant content =>
      simp only [streamedOf]
      split <;> simp
    | result r => simp [streamedOf]
    | system sub => simp [streamedOf]

lemma drain_result_count (cb : Bool) (msgs : List SdkMessage) :
    (drain cb msgs).result_count = countResults msgs := by
  simpa [initDrain] using foldl_result_count cb msgs initDrain

lemma drain_tool_count (cb : Bool) (msgs : List SdkMessage) :
    (drain cb msgs).tool_count = countTools msgs := by
  simpa [initDrain] using foldl_tool_count cb msgs initDrain

lemma drain_text_parts (cb : Bool) (msgs : List SdkMessage) :
    (drain cb msgs).text_parts = allTextParts msgs := by
  simpa [initDrain] using foldl_text_parts cb msgs initDrain

lemma drain_last_result (cb : Bool) (msgs : List SdkMessage) :
    (drain cb msgs).last_result_text = lastResultText msgs := by
  have h := foldl_last_result cb msgs initDrain
  simp only [drain, initDrain] at h ⊢
  rw [h]
  cases lastResultText msgs <;> rfl

lemma drain_streamed (cb : Bool) (msgs : List SdkMessage) :
    (drain cb msgs).streamed = streamedOf cb msgs := by
  simpa [initDrain] using foldl_streamed cb msgs initDrain

/-! ### The two exit branches of `_execute_locked` -/

lemma executeLocked_hang (clients : List Int) (chat_id : Int) (cb : Bool)
    (msgs : List SdkMessage) (elapsed : Nat) (h : countResults msgs = 0) :
    executeLocked clients chat_id cb msgs true elapsed =
      ({ success := false, output := "",
         error := some (timeoutErrorText elapsed (countTools msgs)) },
       withoutClient (withClient clients chat_id) chat_id) := by
  unfold executeLocked
  rw [if_pos ⟨rfl, by rw [drain_result_count]; exact h⟩, drain_tool_count]

lemma executeLocked_success (clients : List Int) (chat_id : Int) (cb : Bool)
    (msgs : List SdkMessage) (timedOut : Bool) (elapsed : Nat)
    (h : ¬(timedOut = true ∧ countResults msgs = 0)) :
    executeLocked clients chat_id cb msgs timedOut elapsed =
      ({ success := true,
         output := pyStrip ((lastResultText msgs).getD (joinNL (allTextParts msgs))),
         error := none },
       withClient clients chat_id) := by
  unfold executeLocked
  rw [if_neg (by rw [drain_result_count]; exact h), drain_last_result, drain_text_parts]

lemma not_mem_withoutClient (clients : List Int) (chat_id : Int) :
    chat_id ∉ withoutClient clients chat_id := by
  simp [withoutClient, List.mem_filter]

lemma mem_withClient (clients : List Int) (chat_id : Int) :
    chat_id ∈ withClient clients chat_id := by
  unfold withClient
  split
  · assumption
  · simp

/-- Claim C1: if the idle wait times out before any terminal result
message has been observed, execute returns success false with a
descriptive timeout error and the session is disconnected and removed
from the table; if it times out after at least one terminal result, it
returns success true using the last observed result text and the session
is not torn down. -/
theorem c1_timeout_policy (clients : List Int) (chat_id : Int) (hasCallback : Bool)
    (msgs : List SdkMessage) (elapsed : Nat) :
    (countResults msgs = 0 →
      (executeLocked clients chat_id hasCallback msgs true elapsed).1.success = false
      ∧ (executeLocked clients chat_id hasCallback msgs true elapsed).1.error
          = some (timeoutErrorText elapsed (countTools msgs))
      ∧ chat_id ∉ (executeLocked clients chat_id hasCallback msgs true elapsed).2)
    ∧ (0 < countResults msgs →
      (executeLocked clients chat_id hasCallback msgs true elapsed).1.success = true
      ∧ (∀ t, lastResultText msgs = some t →
          (executeLocked clients chat_id hasCallback msgs true elapsed).1.output = pyStrip t)
      ∧ chat_id ∈ (executeLocked clients chat_id hasCallback msgs true elapsed).2) := by
  constructor
  · intro h0
    rw [executeLocked_hang clients chat_id hasCallback msgs elapsed h0]
    exact ⟨rfl, rfl, not_mem_withoutClient _ _⟩
  · intro h1
    rw [executeLocked_success clients chat_id hasCallback msgs true elapsed (by omega)]
    refine ⟨rfl, ?_, mem_withClient _ _⟩
    intro t ht
    rw [ht]
    rfl

/-- Witness for C1: a hang with no messages fails and drops the session;
a timeout after one result succeeds with that result. -/
theorem c1_timeout_policy_witness :
    ((executeLocked [] 7 false [] true 42).1.success = false
      ∧ (executeLocked [] 7 false [] true 42).1.error = some (timeoutErrorText 42 0)
      ∧ (7 : Int) ∉ (executeLocked [] 7 false [] true 42).2)
    ∧ ((executeLocked [] 7 false [SdkMessage.result (some ("done"))] true 42).1.success = true
      ∧ (executeLocked [] 7 false [SdkMessage.result (some ("done"))] true 42).1.output = ("done")
      ∧ (7 : Int) ∈ (executeLocked [] 7 false [SdkMessage.result (some ("done"))] true 42).2) := by
  constructor
  · have h := (c1_timeout_policy [] 7 false [] 42).1 (by decide)
    exact ⟨h.1, by simpa [countTools] using h.2.1, h.2.2⟩
  · have h := (c1_timeout_policy [] 7 false [SdkMessage.result (some ("done"))] 42).2 (by decide)
    refine ⟨h.1, ?_, h.2.2⟩
    have h2 := h.2.1 ("done") (by decide)
    rw [h2]
    decide

/-- Counterexample to C2 as stated: in a run whose last terminal result
message carries empty text, the output is the text of the earlier
non-empty result, not the text of the last terminal result message
observed. -/
theorem c2_counterexample :
    countResults [SdkMessage.result (some ("Team spawned")), SdkMessage.result (some (""))] = 2
    ∧ lastTerminalPayload [SdkMessage.result (some ("Team spawned")), SdkMessage.result (some (""))]
        = some (some (""))
    ∧ (executeLocked [] 1 false
        [SdkMessage.result (some ("Team spawned")), SdkMessage.result (some (""))] false 0).1.success
        = true
    ∧ (executeLocked [] 1 false
        [SdkMessage.result (some ("Team spawned")), SdkMessage.result (some (""))] false 0).1.output
        = ("Team spawned")
    ∧ ("Team spawned" : String) ≠ ("") := by
  refine ⟨by decide, by decide, by decide, by decide, by decide⟩

/-- Claim C2 (amended): on success the output equals the trimmed text of
the last terminal result message that carried non-empty text if any was
observed, otherwise the trimmed newline-join of all accumulated assistant
text fragments in receipt order. -/
theorem c2_success_output (clients : List Int) (chat_id : Int) (cb : Bool)
    (msgs : List SdkMessage) (timedOut : Bool) (elapsed : Nat)
    (h : (executeLocked clients chat_id cb msgs timedOut elapsed).1.success = true) :
    (executeLocked clients chat_id cb msgs timedOut elapsed).1.output =
      pyStrip ((lastResultText msgs).getD (joinNL (allTextParts msgs))) := by
  by_cases hcond : timedOut = true ∧ countResults msgs = 0
  · obtain ⟨ht, h0⟩ := hcond
    subst ht
    rw [executeLocked_hang clients chat_id cb msgs elapsed h0] at h
    simp at h
  · rw [executeLocked_success clients chat_id cb msgs timedOut elapsed hcond]

/-- Witness for C2 (amended): two non-empty terminal results, the second
wins. -/
theorem c2_success_output_witness :
    (executeLocked [] 1 false
      [SdkMessage.result (some ("Team spawned")), SdkMessage.result (some ("Final team summary"))]
      false 0).1.output = ("Final team summary") := by
  have h := c2_success_output [] 1 false
    [SdkMessage.result (some ("Team spawned")), SdkMessage.result (some ("Final team summary"))]
    false 0 (by decide)
  rw [h]
  decide

lemma streamedOf_false (msgs : List SdkMessage) : streamedOf false msgs = [] := by
  induction msgs with
  | nil => rfl
  | cons m rest ih =>
    cases m with
    | assistant content => simp [streamedOf, ih]
    | result r => simpa [streamedOf] using ih
    | system sub => simpa [streamedOf] using ih

lemma streamedOf_true_eq_specForwarded (msgs : List SdkMessage) :
    streamedOf true msgs = specForwarded msgs := by
  induction msgs with
  | nil => rfl
  | cons m rest ih =>
    cases m with
    | assistant content =>
      by_cases hlen : MIN_STREAM_LENGTH ≤ (combinedText content).length
      · have hne : msgTextParts content ≠ [] := by
          intro hnil
          rw [combinedText, hnil] at hlen
          simp [joinNL, MIN_STREAM_LENGTH, String.intercalate] at hlen
        rw [streamedOf, specForwarded, if_pos ⟨rfl, hne, hlen⟩, if_pos hlen, ih]
        rfl
      · rw [streamedOf, specForwarded, if_neg (by
            rintro ⟨-, -, hx⟩
            exact hlen hx), if_neg hlen, ih]
    | result r => simpa [streamedOf, specForwarded] using ih
    | system sub => simpa [streamedOf, specForwarded] using ih

/-- Claim C4 (amended): with a callback supplied, the texts forwarded to
it are exactly the combined texts of the assistant messages whose combined
fragment length is at least the minimum-substance threshold, in order;
below-threshold messages and tool-invocation signals are never forwarded,
and nothing is forwarded when no callback is supplied. -/
theorem c4_partial_text_callback (msgs : List SdkMessage) :
    (drain true msgs).streamed = specForwarded msgs
    ∧ (drain false msgs).streamed = [] := by
  rw [drain_streamed, drain_streamed, streamedOf_false, streamedOf_true_eq_specForwarded]
  exact ⟨rfl, rfl⟩

set_option maxRecDepth 8192 in
/-- Counterexample to C4 as stated: a message whose combined length is
exactly the threshold (200) is forwarded, although its length does not
exceed the threshold. -/
theorem c4_counterexample :
    (drain true [SdkMessage.assistant [SdkBlock.text (String.mk (List.replicate 200 'a'))]]).streamed
      = [String.mk (List.replicate 200 'a')]
    ∧ ¬ (MIN_STREAM_LENGTH < (String.mk (List.replicate 200 'a')).length) := by
  constructor
  · decide
  · decide

lemma lastResultText_eq_none_of_all_empty (msgs : List SdkMessage)
    (h : ∀ r ∈ resultPayloads msgs, r = none ∨ r = some ("")) :
    lastResultText msgs = none := by
  induction msgs with
  | nil => rfl
  | cons m rest ih =>
    cases m with
    | assistant content =>
      rw [lastResultText, ih (fun r hr => h r (by simpa [resultPayloads] using hr))]
      rfl
    | result r =>
      have hr := h r (by simp [resultPayloads])
      have hrest := ih (fun r2 hr2 => h r2 (by
        simp only [resultPayloads, List.mem_cons]
        exact Or.inr hr2))
      rcases hr with rfl | rfl
      · rw [lastResultText, hrest]
        rfl
      · rw [lastResultText, hrest]
        simp [resultTextOf]
    | system sub =>
      rw [lastResultText, ih (fun r hr => h r (by simpa [resultPayloads] using hr))]
      rfl

/-- Claim C9: a terminal result whose text is empty or absent increments
the observed-result count but does not update the last-result text; a run
all of whose terminal results carry empty text therefore still treats a
subsequent idle timeout as success, and its output is the joined assistant
fragments rather than an empty result text. -/
theorem c9_empty_result_text (clients : List Int) (chat_id : Int) (cb : Bool)
    (msgs : List SdkMessage) (elapsed : Nat)
    (h : ∀ r ∈ resultPayloads msgs, r = none ∨ r = some ("")) :
    (drain cb msgs).result_count = countResults msgs
    ∧ (drain cb msgs).last_result_text = none
    ∧ (0 < countResults msgs →
        (executeLocked clients chat_id cb msgs true elapsed).1 =
          { success := true, output := pyStrip (joinNL (allTextParts msgs)), error := none }) := by
  refine ⟨drain_result_count cb msgs, ?_, ?_⟩
  · rw [drain_last_result]
    exact lastResultText_eq_none_of_all_empty msgs h
  · intro hpos
    rw [executeLocked_success clients chat_id cb msgs true elapsed (by omega),
      lastResultText_eq_none_of_all_empty msgs h]
    rfl

/-- Witness for C9: one assistant fragment and one empty-text result,
then a timeout, still succeed with the fragment as output. -/
theorem c9_empty_result_text_witness :
    (drain false [SdkMessage.assistant [SdkBlock.text ("abc")], SdkMessage.result (some (""))]).result_count = 1
    ∧ (drain false [SdkMessage.assistant [SdkBlock.text ("abc")], SdkMessage.result (some (""))]).last_result_text = none
    ∧ (executeLocked [] 1 false
        [SdkMessage.assistant [SdkBlock.text ("abc")], SdkMessage.result (some (""))] true 9).1 =
        { success := true, output := ("abc"), error := none } := by
  have h := c9_empty_result_text [] 1 false
    [SdkMessage.assistant [SdkBlock.text ("abc")], SdkMessage.result (some (""))] 9
    (by decide)
  refine ⟨by simpa [countResults] using h.1, h.2.1, ?_⟩
  have h3 := h.2.2 (by decide)
  rw [h3]
  decide

/-! ## Interval parser (`heartbeat/interval.py`)

`parse_interval` runs `re.findall(r"(\d+(?:\.\d+)?)\s*([dhms])", s)` over
the lower-cased, stripped input and folds the matches into `timedelta`
keyword arguments.  `re.findall` scans left to right: at each position it
tries the pattern (greedy digits, an optional `.digits` group, greedy
whitespace, then one unit character — no backtracking can change the
outcome because a digit is never a dot, a whitespace or a unit letter);
on a match it continues after the match, otherwise it advances one
character.  Numeric values are decimal literals; the `float` conversion is
modelled exactly as a rational.  The two `ValueError` families the
function raises (invalid format / non-positive value) are modelled as an
error type without the message text. -/

/-- ASCII decimal digits (what `\d` matches on these inputs). -/
def digitChars : List Char := ['0','1','2','3','4','5','6','7','8','9']

/-- Is `c` an ASCII decimal digit? -/
def isDigitChar (c : Char) : Bool := digitChars.contains c

/-- Value of one decimal digit. -/
def digitVal (c : Char) : Nat :=
  match c with
  | '0' => 0 | '1' => 1 | '2' => 2 | '3' => 3 | '4' => 4
  | '5' => 5 | '6' => 6 | '7' => 7 | '8' => 8 | '9' => 9
  | _ => 0

/-- Value of a decimal digit string. -/
def digitsVal (l : List Char) : Nat := l.foldl (fun a c => 10 * a + digitVal c) 0

/-- The unit characters of the regex class `[dhms]`. -/
def unitChars : List Char := ['d','h','m','s']

/-- One match of the findall pattern: group 1 split into integer digits
and optional fractional digits, and the unit character of group 2. -/
structure IntervalToken where
  intPart : List Char
  fracPart : Option (List Char)
  unit : Char
deriving Repr, DecidableEq

/-- `float(value_str)` of a matched number, modelled exactly. -/
def tokenValue (t : IntervalToken) : ℚ :=
  match t.fracPart with
  | none => (digitsVal t.intPart : ℚ)
  | some f => (digitsVal t.intPart : ℚ) + (digitsVal f : ℚ) / (10 : ℚ) ^ f.length

/-- Final step of a token match: after the greedy `\s*`, `r3` must begin
with one unit character of `[dhms]`. -/
def matchUnit (ds : List Char) (frac : Option (List Char)) (r3 : List Char) :
    Option (IntervalToken × List Char) :=
  match r3 with
  | u :: rest => if unitChars.contains u then some (⟨ds, frac, u⟩, rest) else none
  | [] => none

/-- After the integer digits: consume the optional `(?:\.\d+)?` group
(present only when a dot is followed by at least one digit, which is the
only way the greedy optional group can take part in a successful match),
then the greedy `\s*`, then the unit. -/
def matchAfterNum (ds r1 : List Char) : Option (IntervalToken × List Char) :=
  if r1.head? = some '.' ∧ r1.tail.takeWhile isDigitChar ≠ [] then
    matchUnit ds (some (r1.tail.takeWhile isDigitChar))
      ((r1.tail.drop (r1.tail.takeWhile isDigitChar).length).dropWhile pyIsSpace)
  else
    matchUnit ds none (r1.dropWhile pyIsSpace)

/-- Try to match `(\d+(?:\.\d+)?)\s*([dhms])` at the head of `l`; on
success return the token and the characters after the match. -/
def matchToken (l : List Char) : Option (IntervalToken × List Char) :=
  if l.takeWhile isDigitChar = [] then none
  else matchAfterNum (l.takeWhile isDigitChar) (l.drop (l.takeWhile isDigitChar).length)

lemma matchUnit_rest_lt (ds : List Char) (frac : Option (List Char)) (r3 : List Char)
    (t : IntervalToken) (r : List Char) (h : matchUnit ds frac r3 = some (t, r)) :
    r.length < r3.length := by
  cases r3 with
  | nil => exact absurd h (by simp [matchUnit])
  | cons u rest =>
    unfold matchUnit at h
    split at h
    · rename_i u2 rest2 heq
      injection heq with h1 h2
      subst h1
      subst h2
      split at h
      · simp only [Option.some.injEq, Prod.mk.injEq] at h
        obtain ⟨-, rfl⟩ := h
        simp
      · exact absurd h (by simp)
    · exact absurd h (by simp)

lemma matchAfterNum_rest_le (ds r1 : List Char) (t : IntervalToken) (r : List Char)
    (h : matchAfterNum ds r1 = some (t, r)) : r.length < r1.length + 1 := by
  unfold matchAfterNum at h
  split at h
  · have h1 := matchUnit_rest_lt _ _ _ _ _ h
    have h2 : ((r1.tail.drop (r1.tail.takeWhile isDigitChar).length).dropWhile pyIsSpace).length
        ≤ r1.tail.length := by
      have h3 := (List.dropWhile_sublist (l := r1.tail.drop (r1.tail.takeWhile isDigitChar).length)
        pyIsSpace).length_le
      simp only [List.length_drop] at h3
      omega
    have h4 : r1.tail.length ≤ r1.length := by
      cases r1 <;> simp
    omega
  · have h1 := matchUnit_rest_lt _ _ _ _ _ h
    have h2 : (r1.dropWhile pyIsSpace).length ≤ r1.length :=
      (List.dropWhile_sublist pyIsSpace).length_le
    omega

lemma matchToken_rest_lt (l : List Char) (t : IntervalToken) (r : List Char)
    (h : matchToken l = some (t, r)) : r.length < l.length := by
  unfold matchToken at h
  split at h
  · exact absurd h (by simp)
  · rename_i hds
    have htw : 0 < (l.takeWhile isDigitChar).length :=
      List.length_pos.mpr hds
    have hlenTW : (l.takeWhile isDigitChar).length ≤ l.length :=
      (List.takeWhile_sublist isDigitChar).length_le
    have h1 := matchAfterNum_rest_le _ _ _ _ h
    simp only [List.length_drop] at h1
    omega

/-- The scan loop of `re.findall`, with explicit fuel (each step consumes
at least one character, so `l.length` fuel always suffices; see
`findTokensGo_congr`). -/
def findTokensGo : Nat → List Char → List IntervalToken
  | 0, _ => []
  | fuel+1, l =>
    match matchToken l with
    | some (t, r) => t :: findTokensGo fuel r
    | none =>
      match l with
      | [] => []
      | _ :: rest => findTokensGo fuel rest

/-- `re.findall` for the interval pattern: scan left to right, continue
after each match, advance one character on failure. -/
def findTokens (l : List Char) : List IntervalToken :=
  findTokensGo l.length l

lemma findTokensGo_succ (n : Nat) (l : List Char) :
    findTokensGo (n + 1) l =
      match matchToken l with
      | some (t, r) => t :: findTokensGo n r
      | none =>
        match l with
        | [] => []
        | _ :: rest => findTokensGo n rest := rfl

/-- Any fuel of at least `l.length` gives the same scan result. -/
lemma findTokensGo_congr :
    ∀ (fuel1 fuel2 : Nat) (l : List Char), l.length ≤ fuel1 → l.length ≤ fuel2 →
      findTokensGo fuel1 l = findTokensGo fuel2 l := by
  intro fuel1
  induction fuel1 with
  | zero =>
    intro fuel2 l h1 h2
    have : l = [] := List.length_eq_zero.mp (by omega)
    subst this
    cases fuel2 <;> rfl
  | succ n ih =>
    intro fuel2 l h1 h2
    cases l with
    | nil => cases fuel2 <;> rfl
    | cons c rest =>
      cases fuel2 with
      | zero => simp at h2
      | succ m =>
        rw [findTokensGo, findTokensGo]
        cases hm : matchToken (c :: rest) with
        | some tr =>
          obtain ⟨t, r⟩ := tr
          have hlt := matchToken_rest_lt _ _ _ hm
          simp only [List.length_cons] at hlt h1 h2
          show t :: findTokensGo n r = t :: findTokensGo m r
          rw [ih m r (by omega) (by omega)]
        | none =>
          simp only [List.length_cons] at h1 h2
          show findTokensGo n rest = findTokensGo m rest
          exact ih m rest (by omega) (by omega)

/-- Unfolding `findTokens` through a successful match. -/
lemma findTokens_cons_of_match (l : List Char) (t : IntervalToken) (r : List Char)
    (hm : matchToken l = some (t, r)) :
    findTokens l = t :: findTokens r := by
  have hlt := matchToken_rest_lt l t r hm
  unfold findTokens
  cases hL : l.length with
  | zero => omega
  | succ n =>
    rw [findTokensGo_succ, hm]
    exact congrArg _ (findTokensGo_congr n r.length r (by omega) (by omega))

/-- The two `ValueError` families `parse_interval` raises. -/
inductive IntervalError
  | invalidFormat
  | nonPositive
deriving Repr, DecidableEq

/-- Seconds per unit, the `timedelta` weight of each keyword. -/
def unitSeconds (u : Char) : ℚ :=
  if u = 'd' then 86400 else if u = 'h' then 3600 else if u = 'm' then 60 else 1

/-- The kwargs dict (days/hours/minutes/seconds); keys absent from the
dict contribute 0 to the `timedelta`, so all slots start at 0. -/
structure IntervalKwargs where
  days : ℚ
  hours : ℚ
  minutes : ℚ
  seconds : ℚ
deriving Repr, DecidableEq

/-- `kwargs[unit] += value` (equal to first assignment when starting
from 0). -/
def addToKwargs (kw : IntervalKwargs) (u : Char) (v : ℚ) : IntervalKwargs :=
  if u = 'd' then { kw with days := kw.days + v }
  else if u = 'h' then { kw with hours := kw.hours + v }
  else if u = 'm' then { kw with minutes := kw.minutes + v }
  else { kw with seconds := kw.seconds + v }

/-- The loop over matches: reject values `<= 0` (first offender wins),
accumulate the rest. -/
def buildKwargs : List IntervalToken → IntervalKwargs → Except IntervalError IntervalKwargs
  | [], kw => .ok kw
  | t :: rest, kw =>
    if tokenValue t ≤ 0 then .error .nonPositive
    else buildKwargs rest (addToKwargs kw t.unit (tokenValue t))

/-- `timedelta(**kwargs).total_seconds()`, exact. -/
def kwargsSeconds (kw : IntervalKwargs) : ℚ :=
  kw.days * 86400 + kw.hours * 3600 + kw.minutes * 60 + kw.seconds

/-- `parse_interval` from `heartbeat/interval.py`; the duration is
returned in seconds. -/
def parse_interval (duration : Option String) : Except IntervalError ℚ :=
  match duration with
  | none => .ok 1800
  | some s =>
    if (stripL s.data).isEmpty then .ok 1800
    else if (stripL s.data).contains '-' then .error .nonPositive
    else if (findTokens (toLowerL (stripL s.data))).isEmpty then .error .invalidFormat
    else (buildKwargs (findTokens (toLowerL (stripL s.data))) ⟨0, 0, 0, 0⟩).map kwargsSeconds

lemma parse_interval_some (s : String) :
    parse_interval (some s) =
      (if (stripL s.data).isEmpty = true then Except.ok 1800
       else if (stripL s.data).contains '-' = true then Except.error IntervalError.nonPositive
       else if (findTokens (toLowerL (stripL s.data))).isEmpty = true then
         Except.error IntervalError.invalidFormat
       else Except.map kwargsSeconds
         (buildKwargs (findTokens (toLowerL (stripL s.data))) ⟨0, 0, 0, 0⟩)) := rfl

/-! ### Valid token sequences and their rendering -/

lemma isDigitChar_elim (c : Char) (h : isDigitChar c = true) :
    pyIsSpace c = false ∧ pyToLower c = c ∧ c ≠ '-' ∧ c ≠ '.' := by
  simp only [isDigitChar, List.contains, List.elem_iff, digitChars, List.mem_cons,
    List.not_mem_nil, or_false] at h
  rcases h with rfl | rfl | rfl | rfl | rfl | rfl | rfl | rfl | rfl | rfl <;>
    exact ⟨by decide, by decide, by decide, by decide⟩

lemma unitChar_elim (u : Char) (h : u ∈ unitChars) :
    pyIsSpace u = false ∧ pyToLower u = u ∧ u ≠ '-' ∧ u ≠ '.' ∧ isDigitChar u = false ∧
      unitChars.contains u = true := by
  simp only [unitChars, List.mem_cons, List.not_mem_nil, or_false] at h
  rcases h with rfl | rfl | rfl | rfl <;>
    exact ⟨by decide, by decide, by decide, by decide, by decide, by decide⟩

/-- The text a matched token came from: digits, an optional dot-fraction,
then the unit character. -/
def renderToken (t : IntervalToken) : List Char :=
  t.intPart ++ ((match t.fracPart with | some f => '.' :: f | none => []) ++ [t.unit])

/-- A token sequence rendered back to input text (no separators; the
claims quantify over token sequences like `2h30m`, `1h1h`). -/
def renderTokens : List IntervalToken → List Char
  | [] => []
  | t :: rest => renderToken t ++ renderTokens rest

/-- Well-formedness of the fractional digits of a token. -/
def ValidFrac : Option (List Char) → Prop
  | none => True
  | some f => f ≠ [] ∧ ∀ c ∈ f, isDigitChar c = true

instance : (o : Option (List Char)) → Decidable (ValidFrac o)
  | none => .isTrue trivial
  | some f => inferInstanceAs (Decidable (f ≠ [] ∧ ∀ c ∈ f, isDigitChar c = true))

/-- A well-formed `<number><unit>` token with positive value. -/
def ValidToken (t : IntervalToken) : Prop :=
  t.intPart ≠ [] ∧ (∀ c ∈ t.intPart, isDigitChar c = true) ∧
  ValidFrac t.fracPart ∧ t.unit ∈ unitChars ∧ 0 < tokenValue t

instance (t : IntervalToken) : Decidable (ValidToken t) :=
  inferInstanceAs (Decidable (_ ∧ _ ∧ _ ∧ _ ∧ _))

/-- The exact sum of a token sequence, in seconds. -/
def tokensSeconds : List IntervalToken → ℚ
  | [] => 0
  | t :: rest => tokenValue t * unitSeconds t.unit + tokensSeconds rest

lemma takeWhile_append_all {p : Char → Bool} (l₁ l₂ : List Char)
    (h : ∀ c ∈ l₁, p c = true) :
    (l₁ ++ l₂).takeWhile p = l₁ ++ l₂.takeWhile p := by
  induction l₁ with
  | nil => rfl
  | cons a tl ih =>
    simp only [List.cons_append, List.takeWhile_cons, h a (List.mem_cons_self a tl), if_true]
    rw [ih (fun c hc => h c (List.mem_cons_of_mem a hc))]

/-- The findall pattern, applied at the start of a rendered valid token,
consumes exactly that token. -/
lemma matchToken_render (ip : List Char) (fp : Option (List Char)) (u : Char)
    (rest : List Char) (hv : ValidToken ⟨ip, fp, u⟩) :
    matchToken (renderToken ⟨ip, fp, u⟩ ++ rest) = some (⟨ip, fp, u⟩, rest) := by
  obtain ⟨hne, hdig, hfrac, hunit, hpos⟩ := hv
  obtain ⟨husp, hulow, hudash, hudot, hunotdig, hucont⟩ := unitChar_elim u hunit
  cases fp with
  | none =>
    have hshape : renderToken ⟨ip, none, u⟩ ++ rest = ip ++ (u :: rest) := by
      simp [renderToken]
    have htw : (ip ++ (u :: rest)).takeWhile isDigitChar = ip := by
      rw [takeWhile_append_all ip (u :: rest) hdig, List.takeWhile_cons, hunotdig]
      simp
    rw [hshape]
    unfold matchToken
    rw [if_neg (by rw [htw]; exact hne), htw, List.drop_left]
    unfold matchAfterNum
    rw [if_neg (by
      rintro ⟨hhead, -⟩
      simp only [List.head?_cons, Option.some.injEq] at hhead
      exact hudot hhead)]
    rw [List.dropWhile_cons, husp]
    simp only [Bool.false_eq_true, if_false, matchUnit, hucont, if_true]
  | some f =>
    obtain ⟨hfne, hfdig⟩ := hfrac
    have hshape : renderToken ⟨ip, some f, u⟩ ++ rest = ip ++ ('.' :: (f ++ (u :: rest))) := by
      simp [renderToken]
    have htw : (ip ++ ('.' :: (f ++ (u :: rest)))).takeWhile isDigitChar = ip := by
      rw [takeWhile_append_all ip _ hdig, List.takeWhile_cons,
        (by decide : isDigitChar '.' = false)]
      simp
    have htwf : (f ++ (u :: rest)).takeWhile isDigitChar = f := by
      rw [takeWhile_append_all f (u :: rest) hfdig, List.takeWhile_cons, hunotdig]
      simp
    rw [hshape]
    unfold matchToken
    rw [if_neg (by rw [htw]; exact hne), htw, List.drop_left]
    unfold matchAfterNum
    rw [if_pos (by
      constructor
      · simp
      · simp only [List.tail_cons, htwf]
        exact hfne)]
    simp only [List.tail_cons, htwf]
    rw [List.drop_left, List.dropWhile_cons, husp]
    simp only [Bool.false_eq_true, if_false, matchUnit, hucont, if_true]

lemma findTokens_render (ts : List IntervalToken) (hval : ∀ t ∈ ts, ValidToken t) :
    findTokens (renderTokens ts) = ts := by
  induction ts with
  | nil => rfl
  | cons t rest ih =>
    obtain ⟨ip, fp, u⟩ := t
    have hm := matchToken_render ip fp u (renderTokens rest)
      (hval _ (List.mem_cons_self _ _))
    rw [renderTokens, findTokens_cons_of_match _ _ _ hm,
      ih (fun t2 ht2 => hval t2 (List.mem_cons_of_mem _ ht2))]

lemma kwargsSeconds_add (kw : IntervalKwargs) (u : Char) (v : ℚ) :
    kwargsSeconds (addToKwargs kw u v) = kwargsSeconds kw + v * unitSeconds u := by
  unfold addToKwargs unitSeconds kwargsSeconds
  split_ifs <;> simp <;> ring

lemma buildKwargs_ok (ts : List IntervalToken) (hpos : ∀ t ∈ ts, 0 < tokenValue t)
    (kw : IntervalKwargs) :
    ∃ kw2, buildKwargs ts kw = .ok kw2 ∧
      kwargsSeconds kw2 = kwargsSeconds kw + tokensSeconds ts := by
  induction ts generalizing kw with
  | nil => exact ⟨kw, rfl, by simp [tokensSeconds]⟩
  | cons t rest ih =>
    have ht := hpos t (List.mem_cons_self _ _)
    obtain ⟨kw2, h1, h2⟩ := ih (fun t2 ht2 => hpos t2 (List.mem_cons_of_mem _ ht2))
      (addToKwargs kw t.unit (tokenValue t))
    refine ⟨kw2, ?_, ?_⟩
    · rw [buildKwargs, if_neg (not_le.mpr ht)]
      exact h1
    · rw [h2, kwargsSeconds_add, tokensSeconds]
      ring

lemma dropWhile_eq_self_of_all {p : Char → Bool} (l : List Char)
    (h : ∀ c ∈ l, p c = false) : l.dropWhile p = l := by
  cases l with
  | nil => rfl
  | cons a tl =>
    rw [List.dropWhile_cons, h a (List.mem_cons_self a tl)]
    simp

lemma stripL_eq_self (l : List Char) (h : ∀ c ∈ l, pyIsSpace c = false) :
    stripL l = l := by
  unfold stripL lstripL rstripL
  rw [dropWhile_eq_self_of_all l h,
    dropWhile_eq_self_of_all l.reverse (fun c hc => h c (List.mem_reverse.mp hc)),
    List.reverse_reverse]

lemma toLowerL_eq_self (l : List Char) (h : ∀ c ∈ l, pyToLower c = c) :
    toLowerL l = l := by
  unfold toLowerL
  induction l with
  | nil => rfl
  | cons a tl ih =>
    rw [List.map_cons, h a (List.mem_cons_self a tl),
      ih (fun c hc => h c (List.mem_cons_of_mem a hc))]

lemma renderTokens_chars (ts : List IntervalToken) (hval : ∀ t ∈ ts, ValidToken t) :
    ∀ c ∈ renderTokens ts, isDigitChar c = true ∨ c = '.' ∨ c ∈ unitChars := by
  induction ts with
  | nil => simp [renderTokens]
  | cons t rest ih =>
    intro c hc
    rw [renderTokens, List.mem_append] at hc
    rcases hc with hc | hc
    · obtain ⟨-, hdig, hfrac, hunit, -⟩ := hval t (List.mem_cons_self _ _)
      rw [renderToken, List.mem_append] at hc
      rcases hc with hc | hc
      · exact Or.inl (hdig c hc)
      · rw [List.mem_append] at hc
        rcases hc with hc | hc
        · cases hfp : t.fracPart with
          | none => rw [hfp] at hc; simp at hc
          | some f =>
            rw [hfp] at hc
            rw [hfp] at hfrac
            simp only [List.mem_cons] at hc
            rcases hc with rfl | hc
            · exact Or.inr (Or.inl rfl)
            · exact Or.inl (hfrac.2 c hc)
        · simp only [List.mem_cons, List.not_mem_nil, or_false] at hc
          subst hc
          exact Or.inr (Or.inr hunit)
    · exact ih (fun t2 ht2 => hval t2 (List.mem_cons_of_mem _ ht2)) c hc

lemma render_char_facts (c : Char)
    (h : isDigitChar c = true ∨ c = '.' ∨ c ∈ unitChars) :
    pyIsSpace c = false ∧ pyToLower c = c ∧ c ≠ '-' := by
  rcases h with h | rfl | h
  · obtain ⟨h1, h2, h3, -⟩ := isDigitChar_elim c h
    exact ⟨h1, h2, h3⟩
  · exact ⟨by decide, by decide, by decide⟩
  · obtain ⟨h1, h2, h3, -⟩ := unitChar_elim c h
    exact ⟨h1, h2, h3⟩

lemma renderTokens_ne_nil (t : IntervalToken) (rest : List IntervalToken)
    (hv : ValidToken t) : renderTokens (t :: rest) ≠ [] := by
  intro h0
  have hlen := congrArg List.length h0
  simp only [renderTokens, renderToken, List.length_append, List.length_nil] at hlen
  obtain ⟨hip, -⟩ := hv
  simp at hlen

/-- Claim C6: parse_interval maps every valid token sequence to the exact
sum of its components in seconds (so 2h30m is exactly 150 minutes and
1d12h30m45s exactly that sum in seconds), accumulates repeated units
(1h1h is two hours, an instance of the same sum), and returns the default
of 30 minutes for None, empty, or whitespace-only input. -/
theorem c6_parse_interval_exact_sum (ts : List IntervalToken) (hne : ts ≠ [])
    (hval : ∀ t ∈ ts, ValidToken t) :
    parse_interval (some ⟨renderTokens ts⟩) = .ok (tokensSeconds ts)
    ∧ parse_interval none = .ok 1800
    ∧ parse_interval (some ("")) = .ok 1800
    ∧ parse_interval (some ("   ")) = .ok 1800 := by
  refine ⟨?_, rfl, rfl, rfl⟩
  have hchars := renderTokens_chars ts hval
  have hstrip : stripL (String.mk (renderTokens ts)).data = renderTokens ts :=
    stripL_eq_self _ (fun c hc => (render_char_facts c (hchars c hc)).1)
  have hlow : toLowerL (renderTokens ts) = renderTokens ts :=
    toLowerL_eq_self _ (fun c hc => (render_char_facts c (hchars c hc)).2.1)
  have hren : renderTokens ts ≠ [] := by
    cases ts with
    | nil => exact absurd rfl hne
    | cons t rest => exact renderTokens_ne_nil t rest (hval t (List.mem_cons_self _ _))
  rw [parse_interval_some]
  rw [hstrip]
  rw [if_neg (by simp only [List.isEmpty_iff]; exact hren)]
  rw [if_neg (by
    intro hcont
    have hmem : '-' ∈ renderTokens ts := by
      simpa [List.contains, List.elem_iff] using hcont
    exact (render_char_facts '-' (hchars '-' hmem)).2.2 rfl)]
  rw [hlow, findTokens_render ts hval]
  rw [if_neg (by simp only [List.isEmpty_iff]; exact hne)]
  obtain ⟨kw2, hb, hsum⟩ := buildKwargs_ok ts (fun t ht => (hval t ht).2.2.2.2) ⟨0, 0, 0, 0⟩
  rw [hb]
  have hzero : kwargsSeconds ⟨0, 0, 0, 0⟩ = 0 := by
    simp [kwargsSeconds]
  rw [hzero, zero_add] at hsum
  simp [Except.map, hsum]

/-- Witness for C6: the token sequences behind 2h30m (exactly 9000
seconds, i.e. 150 minutes) and 1h1h (accumulation to 7200 seconds), plus
the None default. -/
theorem c6_parse_interval_exact_sum_witness :
    parse_interval (some ("2h30m")) = .ok 9000
    ∧ parse_interval (some ("1h1h")) = .ok 7200
    ∧ parse_interval none = .ok 1800 := by
  refine ⟨?_, ?_, (c6_parse_interval_exact_sum [⟨['1'], none, 'h'⟩] (by decide) (by decide)).2.1⟩
  · have h := (c6_parse_interval_exact_sum [⟨['2'], none, 'h'⟩, ⟨['3', '0'], none, 'm'⟩]
      (by decide) (by decide)).1
    rw [show (⟨renderTokens [⟨['2'], none, 'h'⟩, ⟨['3', '0'], none, 'm'⟩]⟩ : String)
        = ("2h30m") from by decide] at h
    rw [h]
    norm_num [tokensSeconds,
      show tokenValue ⟨['2'], none, 'h'⟩ = ((2 : ℕ) : ℚ) from rfl,
      show tokenValue ⟨['3', '0'], none, 'm'⟩ = ((30 : ℕ) : ℚ) from rfl,
      show unitSeconds 'h' = 3600 from rfl,
      show unitSeconds 'm' = 60 from rfl]
  · have h := (c6_parse_interval_exact_sum [⟨['1'], none, 'h'⟩, ⟨['1'], none, 'h'⟩]
      (by decide) (by decide)).1
    rw [show (⟨renderTokens [⟨['1'], none, 'h'⟩, ⟨['1'], none, 'h'⟩]⟩ : String)
        = ("1h1h") from by decide] at h
    rw [h]
    norm_num [tokensSeconds,
      show tokenValue ⟨['1'], none, 'h'⟩ = ((1 : ℕ) : ℚ) from rfl,
      show unitSeconds 'h' = 3600 from rfl]

/-- The accumulation loop fails with the non-positive error exactly when
some matched value is `<= 0`, and never with the invalid-format error. -/
lemma buildKwargs_classify (ts : List IntervalToken) (kw : IntervalKwargs) :
    (buildKwargs ts kw = .error .nonPositive ↔ ∃ t ∈ ts, tokenValue t ≤ 0)
    ∧ buildKwargs ts kw ≠ .error .invalidFormat := by
  induction ts generalizing kw with
  | nil =>
    constructor
    · constructor
      · intro h; exact absurd h (by simp [buildKwargs])
      · rintro ⟨t, ht, -⟩; simp at ht
    · simp [buildKwargs]
  | cons t rest ih =>
    by_cases hle : tokenValue t ≤ 0
    · rw [buildKwargs, if_pos hle]
      constructor
      · exact ⟨fun _ => ⟨t, List.mem_cons_self _ _, hle⟩, fun _ => rfl⟩
      · simp
    · rw [buildKwargs, if_neg hle]
      obtain ⟨ih1, ih2⟩ := ih (addToKwargs kw t.unit (tokenValue t))
      constructor
      · rw [ih1]
        constructor
        · rintro ⟨t2, ht2, hv2⟩; exact ⟨t2, List.mem_cons_of_mem _ ht2, hv2⟩
        · rintro ⟨t2, ht2, hv2⟩
          rcases List.mem_cons.mp ht2 with rfl | ht2
          · exact absurd hv2 hle
          · exact ⟨t2, ht2, hv2⟩
      · exact ih2

/-- Claim C7 (amended): on a non-blank input, parse_interval fails with
the invalid-format error exactly when no number-unit token is found
anywhere in the stripped input (junk and unrecognized units elsewhere are
skipped, not rejected) and no dash is present; and it fails with the
non-positive error exactly when the stripped input contains a literal
dash (checked eagerly, before tokenization) or some matched numeric
component is less than or equal to 0. -/
theorem c7_error_taxonomy (s : String) :
    (parse_interval (some s) = .error .invalidFormat ↔
      (stripL s.data ≠ [] ∧ '-' ∉ stripL s.data ∧ findTokens (toLowerL (stripL s.data)) = []))
    ∧ (parse_interval (some s) = .error .nonPositive ↔
      (stripL s.data ≠ [] ∧
        ('-' ∈ stripL s.data ∨
          ∃ t ∈ findTokens (toLowerL (stripL s.data)), tokenValue t ≤ 0))) := by
  rw [parse_interval_some]
  split_ifs with h1 h2 h3
  · rw [List.isEmpty_iff] at h1
    constructor
    · simp [h1]
    · simp [h1]
  · rw [List.isEmpty_iff] at h1
    have hmem : '-' ∈ stripL s.data := by
      simpa [List.contains, List.elem_iff] using h2
    constructor
    · constructor
      · intro h; exact absurd h (by simp)
      · rintro ⟨-, hnot, -⟩; exact absurd hmem hnot
    · constructor
      · intro _; exact ⟨h1, Or.inl hmem⟩
      · intro _; rfl
  · rw [List.isEmpty_iff] at h1 h3
    have hnmem : '-' ∉ stripL s.data := by
      intro hmem
      exact h2 (by simpa [List.contains, List.elem_iff] using hmem)
    constructor
    · constructor
      · intro _; exact ⟨h1, hnmem, h3⟩
      · intro _; rfl
    · constructor
      · intro h; exact absurd h (by simp)
      · rintro ⟨-, hmem | ⟨t, ht, -⟩⟩
        · exact absurd hmem hnmem
        · rw [h3] at ht; simp at ht
  · rw [List.isEmpty_iff] at h1 h3
    have hnmem : '-' ∉ stripL s.data := by
      intro hmem
      exact h2 (by simpa [List.contains, List.elem_iff] using hmem)
    obtain ⟨hcl, hninv⟩ :=
      buildKwargs_classify (findTokens (toLowerL (stripL s.data))) ⟨0, 0, 0, 0⟩
    constructor
    · constructor
      · intro h
        cases hb : buildKwargs (findTokens (toLowerL (stripL s.data))) ⟨0, 0, 0, 0⟩ with
        | ok kw2 => rw [hb] at h; exact absurd h (by simp [Except.map])
        | error e =>
          rw [hb] at h
          simp only [Except.map, Except.error.injEq] at h
          subst h
          exact absurd hb hninv
      · rintro ⟨-, -, hft⟩; exact absurd hft h3
    · constructor
      · intro h
        refine ⟨h1, Or.inr ?_⟩
        rw [← hcl]
        cases hb : buildKwargs (findTokens (toLowerL (stripL s.data))) ⟨0, 0, 0, 0⟩ with
        | ok kw2 => rw [hb] at h; exact absurd h (by simp [Except.map])
        | error e =>
          rw [hb] at h
          simp only [Except.map, Except.error.injEq] at h
          subst h
          rfl
      · rintro ⟨-, hmem | hex⟩
        · exact absurd hmem hnmem
        · rw [hcl.mpr hex]
          rfl

/-- Witness for C7 (amended): a dash fails eagerly as non-positive, a
zero component fails as non-positive, an unmatched unit fails as invalid
format. -/
theorem c7_error_taxonomy_witness :
    parse_interval (some ("-5m")) = .error .nonPositive
    ∧ parse_interval (some ("0m")) = .error .nonPositive
    ∧ parse_interval (some ("5x")) = .error .invalidFormat := by
  refine ⟨?_, ?_, ?_⟩
  · exact (c7_error_taxonomy ("-5m")).2.mpr ⟨by decide, Or.inl (by decide)⟩
  · exact (c7_error_taxonomy ("0m")).2.mpr
      ⟨by decide, Or.inr ⟨⟨['0'], none, 'm'⟩, by decide, by decide⟩⟩
  · exact (c7_error_taxonomy ("5x")).1.mpr ⟨by decide, by decide, by decide⟩

/-- Counterexample to C7 as stated: the input 5m3x contains the
unrecognized unit x, yet parse_interval succeeds with 300 seconds (the
token 3x is silently skipped by the findall scan) instead of failing with
an invalid-format error. -/
theorem c7_counterexample :
    ('x' ∈ ("5m3x").data ∧ isDigitChar 'x' = false ∧ 'x' ∉ unitChars)
    ∧ parse_interval (some ("5m3x")) = .ok 300 := by
  refine ⟨by decide, ?_⟩
  rw [parse_interval_some]
  rw [if_neg (by decide), if_neg (by decide), if_neg (by decide)]
  rw [show findTokens (toLowerL (stripL ("5m3x").data)) = [⟨['5'], none, 'm'⟩] from by decide]
  rw [buildKwargs, if_neg (by norm_num [show tokenValue ⟨['5'], none, 'm'⟩ = ((5:ℕ):ℚ) from rfl])]
  rw [show buildKwargs [] (addToKwargs ⟨0, 0, 0, 0⟩ 'm' (tokenValue ⟨['5'], none, 'm'⟩)) =
    .ok (addToKwargs ⟨0, 0, 0, 0⟩ 'm' (tokenValue ⟨['5'], none, 'm'⟩)) from rfl]
  simp only [Except.map]
  rw [show addToKwargs ⟨0, 0, 0, 0⟩ 'm' (tokenValue ⟨['5'], none, 'm'⟩) =
    ⟨0, 0, 0 + tokenValue ⟨['5'], none, 'm'⟩, 0⟩ from rfl]
  norm_num [kwargsSeconds, show tokenValue ⟨['5'], none, 'm'⟩ = ((5:ℕ):ℚ) from rfl]


/-
Active hours (heartbeat/active_hours.py).

parse_time models active_hours.parse_time: strip, then either HH:MM via a
single-colon split with integer fields, or a bare hour; out-of-range fields
are rejected as the datetime.time constructor rejects them. pyInt models
int() on a stripped, optionally signed digit string. parse_active_hours
models the lazy regex split at the first dash of the stripped text (the
whitespace around the dash is harmless because parse_time strips its
argument). is_within_active_hours takes the local clock of the target
timezone as a count of seconds (an integer), reduces it modulo 86400 to a
time of day, and returns none where the Python function raises ValueError.
-/

def pyInt (l : List Char) : Option Int :=
  match stripL l with
  | [] => none
  | '+' :: ds => if ds ≠ [] ∧ ds.all isDigitChar then some (digitsVal ds : Int) else none
  | '-' :: ds => if ds ≠ [] ∧ ds.all isDigitChar then some (-(digitsVal ds : Int)) else none
  | ds => if ds.all isDigitChar then some (digitsVal ds : Int) else none

def mkTime (h m : Int) : Option (Nat × Nat) :=
  if 0 ≤ h ∧ h ≤ 23 ∧ 0 ≤ m ∧ m ≤ 59 then some (h.toNat, m.toNat) else none

def parse_time (l : List Char) : Option (Nat × Nat) :=
  let t := stripL l
  if ':' ∈ t then
    match t.splitOn ':' with
    | [p0, p1] =>
      match pyInt p0, pyInt p1 with
      | some h, some m => mkTime h m
      | _, _ => none
    | _ => none
  else
    match pyInt t with
    | some h => mkTime h 0
    | none => none

def parse_active_hours (l : List Char) : Option ((Nat × Nat) × (Nat × Nat)) :=
  match stripL l with
  | [] => none
  | c :: rest =>
    if '-' ∈ rest then
      match parse_time (c :: rest.take (rest.indexOf '-')),
            parse_time (rest.drop (rest.indexOf '-' + 1)) with
      | some st, some en => some (st, en)
      | _, _ => none
    else none

def timeSec (t : Nat × Nat) : ℤ := t.1 * 3600 + t.2 * 60

def is_within_active_hours (active_hours : Option String) (nowLocalSec : ℤ) : Option Bool :=
  match active_hours with
  | none => some true
  | some w =>
    if (stripL w.data).isEmpty then some true
    else
      match parse_active_hours w.data with
      | none => none
      | some (st, en) =>
        if timeSec en ≤ timeSec st then
          some (decide (nowLocalSec % 86400 ≥ timeSec st) || decide (nowLocalSec % 86400 < timeSec en))
        else
          some (decide (timeSec st ≤ nowLocalSec % 86400) && decide (nowLocalSec % 86400 < timeSec en))

lemma is_within_some (w : String) (now : ℤ) :
    is_within_active_hours (some w) now =
      (if (stripL w.data).isEmpty = true then some true
       else
         match parse_active_hours w.data with
         | none => none
         | some (st, en) =>
           if timeSec en ≤ timeSec st then
             some (decide (now % 86400 ≥ timeSec st) || decide (now % 86400 < timeSec en))
           else
             some (decide (timeSec st ≤ now % 86400) && decide (now % 86400 < timeSec en))) := rfl

lemma parse_active_hours_strip_ne (l : List Char) (v : (Nat × Nat) × (Nat × Nat))
    (hp : parse_active_hours l = some v) : stripL l ≠ [] := by
  intro h0
  rw [parse_active_hours] at hp
  rw [h0] at hp
  exact absurd hp (by simp)

/-- C8: is_within_active_hours returns true for a missing or blank window
regardless of the clock; otherwise, writing t for the time of day of the
instant (the local-clock seconds reduced modulo 86400), a parsed window
with start st and end en is treated as overnight when en is at most st, in
which case the result is true iff st ≤ t or t < en, and otherwise the result
is true iff st ≤ t and t < en; the start boundary is inclusive, the end
boundary exclusive, and the result depends only on the time of day: shifting
the instant by any whole number of days never changes it. -/
theorem c8_active_hours_semantics (w : Option String) (now : ℤ) :
    (is_within_active_hours none now = some true)
    ∧ (∀ s : String, stripL s.data = [] → is_within_active_hours (some s) now = some true)
    ∧ (∀ (s : String) (st en : Nat × Nat),
        parse_active_hours s.data = some (st, en) →
        (timeSec en ≤ timeSec st →
          (is_within_active_hours (some s) now = some true ↔
            (timeSec st ≤ now % 86400 ∨ now % 86400 < timeSec en)))
        ∧ (timeSec st < timeSec en →
          (is_within_active_hours (some s) now = some true ↔
            (timeSec st ≤ now % 86400 ∧ now % 86400 < timeSec en))))
    ∧ (∀ k : ℤ, is_within_active_hours w (now + 86400 * k) = is_within_active_hours w now) := by
  refine ⟨rfl, ?_, ?_, ?_⟩
  · intro s hs
    rw [is_within_some, if_pos (by simp [List.isEmpty_iff, hs])]
  · intro s st en hp
    have hne := parse_active_hours_strip_ne s.data (st, en) hp
    have hstrip : (stripL s.data).isEmpty = false :=
      Bool.eq_false_iff.mpr (by rw [ne_eq, List.isEmpty_iff]; exact hne)
    constructor
    · intro hov
      rw [is_within_some, hstrip]
      simp only [Bool.false_eq_true, if_false, hp]
      rw [if_pos hov]
      simp [ge_iff_le]
    · intro hlt
      rw [is_within_some, hstrip]
      simp only [Bool.false_eq_true, if_false, hp]
      rw [if_neg (not_le.mpr hlt)]
      simp
  · intro k
    cases w with
    | none => rfl
    | some s =>
      rw [is_within_some, is_within_some]
      by_cases hE : (stripL s.data).isEmpty = true
      · rw [if_pos hE, if_pos hE]
      · rw [if_neg hE, if_neg hE]
        cases hp : parse_active_hours s.data with
        | none => rfl
        | some v =>
          obtain ⟨st, en⟩ := v
          simp only [Int.add_mul_emod_self_left]

theorem c8_active_hours_semantics_witness :
    is_within_active_hours (some ("22:00-06:00")) 82800 = some true := by
  have h := ((c8_active_hours_semantics (some ("22:00-06:00")) 82800).2.2.1
      ("22:00-06:00") (22, 0) (6, 0) (by decide)).1 (by decide)
  exact h.mpr (Or.inl (by decide))

/-
Heartbeat scheduler tick (heartbeat/scheduler.py and heartbeat/delivery.py).

should_execute embeds HeartbeatScheduler._should_execute: a missing or
falsy active_hours setting always allows execution, otherwise the active
hours check decides. get_target_chat embeds
HeartbeatDelivery.get_target_chat: target none disables delivery, target
last uses the most recently active chat, anything else is parsed as a chat
id. runTick embeds one iteration of HeartbeatScheduler._run_loop together
with _execute_heartbeat and the deliver callback: when the active hours
check allows it, the executor is invoked unconditionally, and only
afterwards, inside deliver, does the resolved target decide whether the
alert is sent. schedulerInitParams lists the keyword parameters accepted by
HeartbeatScheduler.__init__, and webhookSchedulerKwargs the keyword
arguments passed at the construction site in webhook.py.
-/

def should_execute (active_hours : Option String) (now : ℤ) : Option Bool :=
  match active_hours with
  | none => some true
  | some s => if s.data = [] then some true else is_within_active_hours (some s) now

def get_target_chat (target : String) (last_active_chat : Option Int) : Option Int :=
  if target = ("none") then none
  else if target = ("last") then last_active_chat
  else
    match pyInt target.data with
    | some n => some n
    | none => none

structure TickTrace where
  executor_invoked : Bool
  delivered : Bool
deriving DecidableEq

def runTick (active_hours : Option String) (now : ℤ) (target : String)
    (last_active_chat : Option Int) (success should_deliver has_on_alert : Bool) :
    Option TickTrace :=
  match should_execute active_hours now with
  | none => none
  | some false => some ⟨false, false⟩
  | some true =>
    if success = false then some ⟨true, false⟩
    else if should_deliver = true ∧ has_on_alert = true then
      some ⟨true, (get_target_chat target last_active_chat).isSome⟩
    else some ⟨true, false⟩

def schedulerInitParams : List String := [("config"), ("executor"), ("on_alert")]

def webhookSchedulerKwargs : List String :=
  [("config"), ("executor"), ("on_alert"), ("get_target_chat")]

/-- C3: contrary to the claim, a heartbeat tick never consults the target
resolver before executing. In the scheduler loop only the active hours check
gates execution, so runTick invokes the executor on every in-window tick for
every resolver outcome, including when get_target_chat resolves to no chat
(target none, or target last with no recorded activity); the resolver is
consulted only after execution, inside deliver, to suppress the alert.
Moreover the construction site in webhook.py passes a get_target_chat
keyword argument that the scheduler constructor does not accept, so the
claimed skip was never wired in. -/
theorem c3_resolver_never_skips_execution :
    (∀ (target : String) (last : Option Int) (sd ha : Bool),
      (runTick none 0 target last true sd ha).map TickTrace.executor_invoked = some true)
    ∧ get_target_chat ("none") (some 5) = none
    ∧ get_target_chat ("last") none = none
    ∧ runTick none 0 ("none") (some 5) true true true = some ⟨true, false⟩
    ∧ ("get_target_chat") ∈ webhookSchedulerKwargs
    ∧ ("get_target_chat") ∉ schedulerInitParams := by
  refine ⟨?_, by decide, by decide, by decide, by decide, by decide⟩
  intro target last sd ha
  simp only [runTick, should_execute]
  split_ifs <;> rfl

end Herald
